import Mathlib

/-!
Verification of the measurement framework and the image-enrichment boundary of
the Gnip-Analysis-Tools repository.

The Python sources embedded here are
`gnip_analysis_tools/measurements/measurement_base.py` (the measurement
framework: field-path resolution, filters, counters, merges, and views) and
`gnip_analysis_tools/enrichments/image_enrichment.py` (the vision-label
enrichment control flow).

Modelling conventions:
* A tweet payload (a parsed JSON document) is a `JsonVal` tree.
* Python exceptions are modelled with `Except PyErr` (or an explicit
  `Option PyErr` component where the post-state matters); the relevant
  Python indexing operations (`d[key]`, `l[i]`, `k in d`) are modelled by
  `pyIndexStr`, `pyIndexNat` and `jsonContains`.
* A Python `dict` (insertion-ordered, unique keys) is modelled as an
  association list; `dictSet` is `d[k] = v`, `dictIncr` is
  `defaultdict(int)`'s `d[k] += v`.
* External collaborators that are not part of the two source files
  (`sanitize_string`, `token_ok`, `term_comparator`, the HTTP client, the
  PIL image decoder, the Keras classifier) are passed in as function
  parameters, exactly at the call sites where the source invokes them.
-/

/-- Python exception kinds raised (or caught) by the embedded code. -/
inductive PyErr where
  | keyError : String → PyErr
  | indexError : PyErr
  | typeError : PyErr
  | attributeError : String → PyErr
  | notImplementedError : String → PyErr
  | connectionError : PyErr
  deriving DecidableEq, Repr

/-- A parsed JSON document: the shape of a tweet payload. -/
inductive JsonVal where
  | null : JsonVal
  | bool : Bool → JsonVal
  | num : Int → JsonVal
  | str : String → JsonVal
  | arr : List JsonVal → JsonVal
  | obj : List (String × JsonVal) → JsonVal

/-- First value bound to `key` in an association list of object fields. -/
def lookupField : List (String × JsonVal) → String → Option JsonVal
  | [], _ => none
  | (k, v) :: rest, key => if k == key then some v else lookupField rest key

/-- Whether an object field list binds `key`. -/
def containsField : List (String × JsonVal) → String → Bool
  | [], _ => false
  | (k, _) :: rest, key => (k == key) || containsField rest key

/-- Python `data[key]` for a string key: a mapping returns the bound value or
raises `KeyError(key)`; subscripting any other node with a string raises
`TypeError`. -/
def pyIndexStr (data : JsonVal) (key : String) : Except PyErr JsonVal :=
  match data with
  | JsonVal.obj fields =>
    match lookupField fields key with
    | some v => Except.ok v
    | none => Except.error (PyErr.keyError key)
  | _ => Except.error PyErr.typeError

/-- Python `data[i]` for a non-negative integer index: a sequence returns the
element or raises `IndexError`; a mapping raises `KeyError(i)` (the integer is
simply an absent dictionary key); a string returns the one-character substring
or raises `IndexError`; other nodes raise `TypeError`. -/
def pyIndexNat (data : JsonVal) (i : Nat) : Except PyErr JsonVal :=
  match data with
  | JsonVal.arr xs =>
    match xs[i]? with
    | some v => Except.ok v
    | none => Except.error PyErr.indexError
  | JsonVal.obj _ => Except.error (PyErr.keyError (toString i))
  | JsonVal.str s =>
    match s.toList[i]? with
    | some c => Except.ok (JsonVal.str (String.mk [c]))
    | none => Except.error PyErr.indexError
  | _ => Except.error PyErr.typeError

/-- Python truthiness of a JSON node: `None`, `False`, `0`, and empty
strings/sequences/mappings are falsy, everything else is truthy. -/
def pyTruthy : JsonVal → Bool
  | JsonVal.null => false
  | JsonVal.bool b => b
  | JsonVal.num n => n != 0
  | JsonVal.str s => !s.isEmpty
  | JsonVal.arr xs => !xs.isEmpty
  | JsonVal.obj fs => !fs.isEmpty

/-- Python `key in data` for the mapping nodes the enrichment code applies it
to; the tweets this code consumes are JSON objects, so the membership test on
any other node kind is modelled as a `TypeError`. -/
def jsonContains (data : JsonVal) (key : String) : Except PyErr Bool :=
  match data with
  | JsonVal.obj fields => Except.ok (containsField fields key)
  | _ => Except.error PyErr.typeError

/-- Run `f` on every list element, collecting the results in order; the first
raised exception aborts the traversal (the Python
`for o in obj: results.append(get_element(o, new_key_path))` loop). -/
def mapExcept (f : JsonVal → Except PyErr JsonVal) : List JsonVal → Except PyErr (List JsonVal)
  | [] => Except.ok []
  | x :: xs =>
    match f x with
    | Except.error e => Except.error e
    | Except.ok y =>
      match mapExcept f xs with
      | Except.error e => Except.error e
      | Except.ok ys => Except.ok (y :: ys)

/-- Lines 74-88 of `measurement_base.py`: the recursive helper `get_element`
inside `MeasurementBase.add_tweet`.  `get_element(data, key_path)` takes
`key = key_path[0]`; with a single-key path it returns `data[key]`; otherwise
it reads `obj = data[key]` and, when `obj` is a list, resolves the remaining
path against every element collecting the results into a list (order
preserved), and when it is not, recurses into `obj`.  An empty path would
raise `IndexError` at `key_path[0]`. -/
def get_element : JsonVal → List String → Except PyErr JsonVal
  | _, [] => Except.error PyErr.indexError
  | data, [key] => pyIndexStr data key
  | data, key :: k2 :: rest =>
    match pyIndexStr data key with
    | Except.error e => Except.error e
    | Except.ok (JsonVal.arr os) =>
      match mapExcept (fun o => get_element o (k2 :: rest)) os with
      | Except.error e => Except.error e
      | Except.ok results => Except.ok (JsonVal.arr results)
    | Except.ok obj => get_element obj (k2 :: rest)

/-- A filter as configured on a measurement (lines 47-53 of the module
docstring): a key path into the tweet, a comparison function and a comparison
value. -/
abbrev FilterSpec : Type := List String × (JsonVal → JsonVal → Bool) × JsonVal

/-- The filter loop of `MeasurementBase.add_tweet` (lines 90-94): each filter
is evaluated in declaration order; resolving its path may raise; the first
filter whose comparator is false stops the loop with the tweet rejected. -/
def runFilters : List FilterSpec → JsonVal → Except PyErr Bool
  | [], _ => Except.ok true
  | (key_path, comparator, value) :: fs, tweet =>
    match get_element tweet key_path with
    | Except.error e => Except.error e
    | Except.ok data =>
      if comparator data value then runFilters fs tweet else Except.ok false

/-- Lines 72-95 of `measurement_base.py`: `MeasurementBase.add_tweet`.
`filters = none` models an instance without a `filters` attribute
(`hasattr(self,"filters")` is false).  The result pairs the final
measurement state with the exception, if one propagated: the filter loop
mutates nothing, so a raised exception leaves the state `st` intact, a
rejected tweet returns with the state `st` intact, and an admitted tweet
returns `update st tweet`. -/
def add_tweet {σ : Type} (filters : Option (List FilterSpec))
    (update : σ → JsonVal → σ) (st : σ) (tweet : JsonVal) : σ × Option PyErr :=
  match filters with
  | none => (update st tweet, none)
  | some fs =>
    match runFilters fs tweet with
    | Except.error e => (st, some e)
    | Except.ok false => (st, none)
    | Except.ok true => (update st tweet, none)

/-- Lines 96-97 of `measurement_base.py`: the default
`MeasurementBase.combine` immediately raises, with a message that is a fixed
string literal (the class name is a parameter here to expose that the message
does not depend on it); the state is returned untouched. -/
def MeasurementBase_combine {σ : Type} (_className : String) (st : σ) (_other : σ) :
    σ × Option PyErr :=
  (st, some (PyErr.notImplementedError
    "Please implement a \x27combine\x27 method for your measurement class"))

/-- Line 107 of `measurement_base.py`: `Counter.combine` does
`self.counter += new_counter.counter`. -/
def Counter_combine (self other : Nat) : Nat := self + other

/-- Line 105 of `measurement_base.py`: `Counter.get` returns
`[(self.counter, self.get_name())]`. -/
def Counter_get (counter : Nat) (className : String) : List (Nat × String) :=
  [(counter, className)]

/-- The state of a `Counters` measurement: the insertion-ordered
`collections.defaultdict(int)` held in `self.counters`, as an association
list with (in any state the program builds) unique keys. -/
abbrev CountersState := List (String × Nat)

/-- Whether the dictionary binds `key`. -/
def containsKey : CountersState → String → Bool
  | [], _ => false
  | (k, _) :: rest, key => (k == key) || containsKey rest key

/-- Total count bound to `key` (0 when absent; on a junk state with duplicate
keys, the sum over the duplicates).  On every state the program builds, keys
are unique and this is exactly the dictionary value, so together with
`containsKey` it determines Python dictionary equality `==`. -/
def keyCount : CountersState → String → Nat
  | [], _ => 0
  | (k, v) :: rest, key => (if k == key then v else 0) + keyCount rest key

/-- Python dictionary equality `==` on counter states: the same keys are
present, each bound to the same count; insertion order is ignored, exactly as
`dict.__eq__` ignores it. -/
def pyDictEq (a b : CountersState) : Prop :=
  ∀ k, containsKey a k = containsKey b k ∧ keyCount a k = keyCount b k

/-- Add `v` to the value at the first binding of `key` (the only binding, on a
unique-key state); no change when `key` is absent. -/
def incrementFirst : CountersState → String → Nat → CountersState
  | [], _, _ => []
  | (k, c) :: rest, key, v =>
    if k == key then (k, c + v) :: rest else (k, c) :: incrementFirst rest key v

/-- Python `d[k] = v` on an insertion-ordered dictionary: overwrite the value
at the existing binding of `k`, else append a new binding. -/
def dictSet : CountersState → String → Nat → CountersState
  | [], key, v => [(key, v)]
  | (k, c) :: rest, key, v =>
    if k == key then (k, v) :: rest else (k, c) :: dictSet rest key v

/-- Python `d[k] += v` on a `defaultdict(int)`: add to the existing binding,
else append a new binding holding `v`. -/
def dictIncr (d : CountersState) (key : String) (v : Nat) : CountersState :=
  if containsKey d key then incrementFirst d key v else d ++ [(key, v)]

/-- Lines 116-121 of `measurement_base.py`: `Counters.combine` walks the other
instance's counters in insertion order; a name already present has the new
count added in place, a new name is inserted (hence appended) with its
count. -/
def Counters_combine (self other : CountersState) : CountersState :=
  other.foldl (fun acc p =>
    if containsKey acc p.1 then incrementFirst acc p.1 p.2
    else dictSet acc p.1 p.2) self

/-- Lines 114-115 of `measurement_base.py`: `Counters.get` returns
`[(count, sanitize_string(name)) for name, count in self.counters.items()]`.
`sanitize_string` lives in `gnip_analysis_tools.nlp.utils` (outside the
embedded sources) and is passed in as a parameter. -/
def Counters_get (sanitize : String → String) (counters : CountersState) :
    List (Nat × String) :=
  counters.map (fun p => (p.2, sanitize p.1))

/-- Lines 183-184 of `measurement_base.py`: `GetBase.get_init` reassigns
`self.counters = {sanitize_string(name): count for name, count in
self.counters.items()}`.  The dict comprehension inserts the sanitized pairs
in iteration order; a repeated (post-sanitization) key keeps its first
position and takes the last value, which is what `dictSet` does. -/
def get_init (sanitize : String → String) (counters : CountersState) : CountersState :=
  counters.foldl (fun acc p => dictSet acc (sanitize p.1) p.2) []

/-- The comparison `operator.itemgetter(1)` induces on `(name, count)` items:
compare the counts only. -/
def countLe (p q : String × Nat) : Prop := p.2 ≤ q.2

instance : DecidableRel countLe := fun p q => inferInstanceAs (Decidable (p.2 ≤ q.2))

instance : IsTotal (String × Nat) countLe := ⟨fun a b => Nat.le_total a.2 b.2⟩

instance : IsTrans (String × Nat) countLe := ⟨fun _ _ _ h1 h2 => Nat.le_trans h1 h2⟩

/-- Line 193 of `measurement_base.py`:
`list(reversed(sorted(self.counters.items(), key=operator.itemgetter(1))))`
applied to the (already sanitized) counters.  Python's `sorted` is a stable
ascending sort, modelled by the stable `List.insertionSort`; the whole sorted
list is then reversed. -/
def sorted_top_all (counters : CountersState) : CountersState :=
  (List.insertionSort countLe counters).reverse

/-- Swap a `(name, count)` item into the `(count, name)` output shape. -/
def swapPair (p : String × Nat) : Nat × String := (p.2, p.1)

/-- Lines 189-194 of `measurement_base.py`: `GetTopCounts.get`.  It first runs
`get_init` (reassigning `self.counters` to the sanitized dictionary), defaults
`top_k` to 20 when the attribute is missing, sorts as on line 193, and returns
the first `top_k` items as `(count, name)` pairs.  The result pairs the
returned list with the final `self.counters`. -/
def GetTopCounts_get (sanitize : String → String) (counters : CountersState)
    (top_k : Option Nat) : List (Nat × String) × CountersState :=
  let s := get_init sanitize counters
  let k := top_k.getD 20
  (((sorted_top_all s).take k).map swapPair, s)

/-- Lines 197-202 of `measurement_base.py`: `GetCutoffCounts.get`.  It runs
`get_init`, defaults `min_n` to 3, reassigns `self.counters` to the
sub-dictionary of items with `count >= min_n`, and returns those items as
`(count, name)` pairs.  The result pairs the returned list with the final
`self.counters`. -/
def GetCutoffCounts_get (sanitize : String → String) (counters : CountersState)
    (min_n : Option Nat) : List (Nat × String) × CountersState :=
  let s := get_init sanitize counters
  let m := min_n.getD 3
  let s' := s.filter (fun p => m ≤ p.2)
  (s'.map swapPair, s')

/-- The message of the `AttributeError` raised by line 208 of
`measurement_base.py`: `super(GetCutoffTopCounts).get()` builds an *unbound*
`super` object (the instance argument is missing), and attribute lookup of
`get` on it fails. -/
def unboundSuperMsg : String := "\x27super\x27 object has no attribute \x27get\x27"

/-- Lines 204-210 of `measurement_base.py`: `GetCutoffTopCounts.get`.  It runs
`get_init` and defaults `top_k`, and then line 208 evaluates
`super(GetCutoffTopCounts).get()`, which raises `AttributeError` on every
call: no output is ever produced.  (`self.counters` has already been
reassigned by `get_init` when the call raises.) -/
def GetCutoffTopCounts_get (sanitize : String → String) (counters : CountersState)
    (_min_n _top_k : Option Nat) : Except PyErr (List (Nat × String) × CountersState) :=
  let _s := get_init sanitize counters
  Except.error (PyErr.attributeError unboundSuperMsg)

/-- Modelled from the spec (section 4.8), for comparison with
`GetTopCounts_get`: "TopK(n): sort entries by count descending; ties broken by
preserving original iteration order (stable sort); return at most n entries
as `(count,label)`" — a stable *descending* sort of the sanitized snapshot,
truncated to `n`. -/
def topKCountsSpec (sanitize : String → String) (counters : CountersState)
    (top_k : Option Nat) : List (Nat × String) :=
  let s := get_init sanitize counters
  let k := top_k.getD 20
  ((List.insertionSort (fun p q : String × Nat => q.2 ≤ p.2) s).take k).map swapPair

/-- Lines 222-226 of `measurement_base.py`:
`SpecifiedBodyTermCounters.update` (and the textually identical
`SpecifiedBioTermCounters.update`): every token produced by `get_tokens` is
tested against every term of the configured `term_list` with
`term_comparator` (an external collaborator, passed in), and each match
increments that term's counter.  `tokens` is the token list `get_tokens`
returned for the tweet. -/
def SpecifiedTermCounters_update (term_comparator : String → String → Bool)
    (term_list : List String) (counters : CountersState) (tokens : List String) :
    CountersState :=
  tokens.foldl (fun cs token =>
    term_list.foldl (fun cs term =>
      if term_comparator token term then dictIncr cs term 1 else cs) cs) counters

/-- The slice of a `requests` response the enrichment reads: `response.ok`
(true for a 2xx/3xx status) and `response.content` (the raw body, abstracted
to a string). -/
structure HttpResponse where
  ok : Bool
  content : String

/-- Lines 100-104 of `image_enrichment.py`: the logging calls interpolate
`tweet['id']`, so each logging path performs that lookup; it raises
`KeyError` when the tweet has no `id`. -/
def logTweetId (tweet : JsonVal) : Except PyErr Unit :=
  match pyIndexStr tweet "id" with
  | Except.error e => Except.error e
  | Except.ok _ => Except.ok ()

/-- Lines 96-104 of `image_enrichment.py`: `ImageLabel._get_img_url`.  When
`twitter_entities` or `media` is absent the function logs (reading
`tweet['id']`) and returns `None`.  Otherwise it evaluates
`tweet['twitter_entities']['media'][0]['media_url']` under a
`try/except KeyError`: a `KeyError` anywhere in the chain logs and leaves the
result `None`, while any other exception — notably the `IndexError` from
`[0]` on an empty media list — propagates. -/
def ImageLabel_get_img_url (tweet : JsonVal) : Except PyErr (Option JsonVal) := do
  let hasTE ← jsonContains tweet "twitter_entities"
  let missing ←
    if hasTE then do
      let te ← pyIndexStr tweet "twitter_entities"
      let hasMedia ← jsonContains te "media"
      pure (!hasMedia)
    else
      pure true
  if missing then do
    logTweetId tweet
    pure none
  else
    let chain : Except PyErr JsonVal := do
      let te ← pyIndexStr tweet "twitter_entities"
      let media ← pyIndexStr te "media"
      let first ← pyIndexNat media 0
      pyIndexStr first "media_url"
    match chain with
    | Except.ok url => pure (some url)
    | Except.error (PyErr.keyError _) => do
      logTweetId tweet
      pure none
    | Except.error e => Except.error e

/-- Lines 123-130 of `image_enrichment.py`: `ImageLabel._download_image`.
`httpGet` models `requests.get`, which returns a response or raises (e.g. a
connection error); `imageOpen` models `Image.open(BytesIO(...))`, which
returns a decoded image (abstracted to a string) or raises on corrupt data.
An HTTP error status (`not response.ok`) logs and returns `None`. -/
def ImageLabel_download_image (httpGet : JsonVal → Except PyErr HttpResponse)
    (imageOpen : String → Except PyErr String) (img_url : JsonVal) :
    Except PyErr (Option String) := do
  let response ← httpGet img_url
  if response.ok then do
    let image ← imageOpen response.content
    pure (some image)
  else
    pure none

/-- Lines 73-79 of `image_enrichment.py`: `ImageLabel._get_image_from_tweet`.
`if img_url:` tests Python truthiness, so a falsy URL value (e.g. an empty
string) also takes the logging branch and yields `None`. -/
def ImageLabel_get_image_from_tweet (httpGet : JsonVal → Except PyErr HttpResponse)
    (imageOpen : String → Except PyErr String) (tweet : JsonVal) :
    Except PyErr (Option String) := do
  let urlOpt ← ImageLabel_get_img_url tweet
  match urlOpt with
  | some url =>
    if pyTruthy url then ImageLabel_download_image httpGet imageOpen url
    else do
      logTweetId tweet
      pure none
  | none => do
    logTweetId tweet
    pure none

/-- Lines 182-186 of `image_enrichment.py`: `ImageLabel._format_output` turns
each `(code, description, probability)` prediction tuple into the
`(description, probability, code)` string triple of the output (the values
are abstracted as strings, `str` on which is the identity). -/
def ImageLabel_format_output (predictions : List (String × String × String)) :
    List (String × String × String) :=
  predictions.map (fun t => (t.2.1, t.2.2, t.1))

/-- Lines 51-57 of `image_enrichment.py`: `ImageLabel.enrichment_value`.
`predict` models `_make_predictions` minus its fixed preprocessing: the Keras
model plus `decode_predictions(..., top=topk)[0]`, an external collaborator
mapping an image and `topk` to a prediction list.  A PIL image object is
always truthy, so `if img:` distinguishes exactly `None`. -/
def ImageLabel_enrichment_value (httpGet : JsonVal → Except PyErr HttpResponse)
    (imageOpen : String → Except PyErr String)
    (predict : String → Nat → List (String × String × String)) (topk : Nat)
    (tweet : JsonVal) : Except PyErr (Option (List (String × String × String))) := do
  let imgOpt ← ImageLabel_get_image_from_tweet httpGet imageOpen tweet
  match imgOpt with
  | some img => pure (some (ImageLabel_format_output (predict img topk)))
  | none => pure none

/-! ### Dictionary lemmas shared by the merge and view proofs -/

theorem containsKey_append (a b : CountersState) (k : String) :
    containsKey (a ++ b) k = (containsKey a k || containsKey b k) := by
  induction a with
  | nil => simp [containsKey]
  | cons p rest ih =>
    obtain ⟨k0, c⟩ := p
    simp [containsKey, ih, Bool.or_assoc]

theorem keyCount_append (a b : CountersState) (k : String) :
    keyCount (a ++ b) k = keyCount a k + keyCount b k := by
  induction a with
  | nil => simp [keyCount]
  | cons p rest ih =>
    obtain ⟨k0, c⟩ := p
    simp [keyCount, ih]
    omega

theorem containsKey_incrementFirst (d : CountersState) (key : String) (v : Nat)
    (k : String) : containsKey (incrementFirst d key v) k = containsKey d k := by
  induction d with
  | nil => rfl
  | cons p rest ih =>
    obtain ⟨k0, c⟩ := p
    cases h : k0 == key <;> simp [incrementFirst, h, containsKey, ih]

theorem keyCount_incrementFirst (d : CountersState) (key : String) (v : Nat)
    (k : String) (hmem : containsKey d key = true) :
    keyCount (incrementFirst d key v) k = keyCount d k + (if key == k then v else 0) := by
  induction d with
  | nil => simp [containsKey] at hmem
  | cons p rest ih =>
    obtain ⟨k0, c⟩ := p
    cases h : k0 == key with
    | true =>
      have hk0 : k0 = key := by simpa using h
      subst hk0
      cases hkk : k0 == k <;> simp [incrementFirst, keyCount, hkk] <;> omega
    | false =>
      have hrest : containsKey rest key = true := by
        simpa [containsKey, h] using hmem
      cases hkk : k0 == k <;> simp [incrementFirst, h, keyCount, hkk, ih hrest] <;> omega

theorem dictSet_of_not_contains (d : CountersState) (key : String) (v : Nat)
    (hmem : containsKey d key = false) : dictSet d key v = d ++ [(key, v)] := by
  induction d with
  | nil => rfl
  | cons p rest ih =>
    obtain ⟨k0, c⟩ := p
    have h : (k0 == key) = false := by
      cases h : k0 == key
      · rfl
      · simp [containsKey, h] at hmem
    have hrest : containsKey rest key = false := by
      simpa [containsKey, h] using hmem
    simp [dictSet, h, ih hrest]

theorem containsKey_Counters_combine (b a : CountersState) (k : String) :
    containsKey (Counters_combine a b) k = (containsKey a k || containsKey b k) := by
  induction b generalizing a with
  | nil => simp [Counters_combine, containsKey]
  | cons p rest ih =>
    obtain ⟨key, v⟩ := p
    show containsKey (Counters_combine _ rest) k = _
    rw [ih]
    cases hmem : containsKey a key with
    | true =>
      cases hk : key == k with
      | true =>
        have : key = k := by simpa using hk
        subst this
        simp [hmem, containsKey, hk, containsKey_incrementFirst]
      | false =>
        simp [hmem, containsKey, hk, containsKey_incrementFirst]
    | false =>
      have hstep : ((fun acc (p : String × Nat) =>
          if containsKey acc p.1 = true then incrementFirst acc p.1 p.2
          else dictSet acc p.1 p.2) a (key, v)) = a ++ [(key, v)] := by
        simp [hmem, dictSet_of_not_contains a key v hmem]
      rw [hstep, containsKey_append]
      simp [containsKey, Bool.or_assoc]

theorem keyCount_Counters_combine (b a : CountersState) (k : String) :
    keyCount (Counters_combine a b) k = keyCount a k + keyCount b k := by
  induction b generalizing a with
  | nil => simp [Counters_combine, keyCount]
  | cons p rest ih =>
    obtain ⟨key, v⟩ := p
    show keyCount (Counters_combine _ rest) k = _
    rw [ih]
    cases hmem : containsKey a key with
    | true =>
      simp only [hmem, if_true, keyCount,
        keyCount_incrementFirst a key v k hmem]
      cases hk : key == k <;> simp [hk] <;> omega
    | false =>
      have hstep : ((fun acc (p : String × Nat) =>
          if containsKey acc p.1 = true then incrementFirst acc p.1 p.2
          else dictSet acc p.1 p.2) a (key, v)) = a ++ [(key, v)] := by
        simp [hmem, dictSet_of_not_contains a key v hmem]
      rw [hstep, keyCount_append]
      cases hk : key == k <;> simp [keyCount, hk] <;> omega

/-- C1: for accumulators of the same concrete kind, `combine` is commutative
and associative on the resulting state.  For `ScalarCounter` (`Counter`) the
state is the integer `self.counter` and equality is literal; for
`NamedCounters` (`Counters`) the state is the counters dictionary and
equality is Python dictionary equality `==` (`pyDictEq`: same keys, same
counts — the notion of state equality the language itself applies to two
`Counters` states). -/
theorem combine_commutative_associative :
    (∀ a b c : Nat,
      Counter_combine a b = Counter_combine b a ∧
      Counter_combine (Counter_combine a b) c = Counter_combine a (Counter_combine b c)) ∧
    (∀ A B C : CountersState,
      pyDictEq (Counters_combine A B) (Counters_combine B A) ∧
      pyDictEq (Counters_combine (Counters_combine A B) C)
        (Counters_combine A (Counters_combine B C))) := by
  constructor
  · intro a b c
    exact ⟨Nat.add_comm a b, Nat.add_assoc a b c⟩
  · intro A B C
    constructor
    · intro k
      constructor
      · rw [containsKey_Counters_combine, containsKey_Counters_combine, Bool.or_comm]
      · rw [keyCount_Counters_combine, keyCount_Counters_combine, Nat.add_comm]
    · intro k
      constructor
      · simp only [containsKey_Counters_combine, Bool.or_assoc]
      · simp only [keyCount_Counters_combine, Nat.add_assoc]

/-! ### Stability lemmas for the sort used by `GetTopCounts.get` -/

theorem filter_orderedInsert (c : Nat) (x : String × Nat) (s : List (String × Nat)) :
    (List.orderedInsert countLe x s).filter (fun p => p.2 == c)
      = if x.2 == c then x :: s.filter (fun p => p.2 == c)
        else s.filter (fun p => p.2 == c) := by
  induction s with
  | nil => simp [List.filter_cons]
  | cons y ys ih =>
    by_cases hle : countLe x y
    · cases hxc : x.2 == c <;>
        simp [List.orderedInsert, hle, List.filter_cons, hxc]
    · have hlt : y.2 < x.2 := Nat.lt_of_not_le hle
      cases hxc : x.2 == c with
      | true =>
        have hxc' : x.2 = c := by simpa using hxc
        have hyc : (y.2 == c) = false := by simp; omega
        simp [List.orderedInsert, hle, List.filter_cons, hyc, ih, hxc]
      | false =>
        simp [List.orderedInsert, hle, List.filter_cons, ih, hxc]

theorem filter_insertionSort (c : Nat) (s : List (String × Nat)) :
    (List.insertionSort countLe s).filter (fun p => p.2 == c)
      = s.filter (fun p => p.2 == c) := by
  induction s with
  | nil => rfl
  | cons x xs ih =>
    rw [List.insertionSort, filter_orderedInsert]
    cases hxc : x.2 == c <;> simp [hxc, ih, List.filter_cons]

/-- C2 (amended): `GetTopCounts.get` output, characterized against the full
descending list `sorted_top_all` of the sanitized snapshot: the output is its
`top_k`-prefix in `(count, name)` form, has at most `top_k` entries (default
20), and carries non-increasing counts; the full descending list is a
permutation of the sanitized snapshot in which the entries tied at each count
appear in the *reverse* of the snapshot's iteration order (Python's
`reversed(sorted(...))` reverses the stable ascending sort, so ties come out
reversed, not preserved). -/
theorem getTopCounts_sorted_bounded_ties_reversed (sanitize : String → String)
    (counters : CountersState) (top_k : Option Nat) :
    (GetTopCounts_get sanitize counters top_k).1
      = ((sorted_top_all (get_init sanitize counters)).take (top_k.getD 20)).map swapPair ∧
    (GetTopCounts_get sanitize counters top_k).1.length ≤ top_k.getD 20 ∧
    List.Pairwise (fun p q : Nat × String => q.1 ≤ p.1)
      (GetTopCounts_get sanitize counters top_k).1 ∧
    (sorted_top_all (get_init sanitize counters)).Perm (get_init sanitize counters) ∧
    ∀ c : Nat, (sorted_top_all (get_init sanitize counters)).filter (fun p => p.2 == c)
      = ((get_init sanitize counters).filter (fun p => p.2 == c)).reverse := by
  refine ⟨rfl, ?_, ?_, ?_, ?_⟩
  · show (((sorted_top_all _).take _).map swapPair).length ≤ _
    rw [List.length_map, List.length_take]
    exact Nat.min_le_left _ _
  · show List.Pairwise _ (((sorted_top_all _).take _).map swapPair)
    rw [List.pairwise_map]
    refine List.Pairwise.sublist (List.take_sublist _ _) ?_
    unfold sorted_top_all
    rw [List.pairwise_reverse]
    exact List.sorted_insertionSort countLe _
  · exact (List.reverse_perm _).trans (List.perm_insertionSort countLe _)
  · intro c
    unfold sorted_top_all
    rw [List.filter_reverse, filter_insertionSort]

/-- C2 (counterexample): on the snapshot `{"a": 2, "b": 5, "c": 2}` the code
returns the tied entries `a` and `c` as `[(5,"b"), (2,"c"), (2,"a")]` — the
tie comes out in reverse iteration order — while the claimed behaviour
(`topKCountsSpec`, the stable descending sort) yields
`[(5,"b"), (2,"a"), (2,"c")]`. -/
theorem getTopCounts_tie_order_counterexample :
    (GetTopCounts_get (fun s => s) [("a", 2), ("b", 5), ("c", 2)] none).1
      = [(5, "b"), (2, "c"), (2, "a")] ∧
    topKCountsSpec (fun s => s) [("a", 2), ("b", 5), ("c", 2)] none
      = [(5, "b"), (2, "a"), (2, "c")] ∧
    (GetTopCounts_get (fun s => s) [("a", 2), ("b", 5), ("c", 2)] none).1
      ≠ topKCountsSpec (fun s => s) [("a", 2), ("b", 5), ("c", 2)] none := by
  refine ⟨rfl, rfl, by decide⟩

/-! ### The view methods and the accumulator they leave behind -/

theorem foldl_dictSet_fresh (sanitize : String → String) (entries acc : CountersState)
    (hfix : ∀ p ∈ entries, sanitize p.1 = p.1)
    (hnd : (entries.map Prod.fst).Nodup)
    (hfresh : ∀ p ∈ entries, containsKey acc p.1 = false) :
    entries.foldl (fun acc p => dictSet acc (sanitize p.1) p.2) acc = acc ++ entries := by
  induction entries generalizing acc with
  | nil => simp
  | cons p rest ih =>
    obtain ⟨k, v⟩ := p
    have hk : sanitize k = k := hfix (k, v) (List.mem_cons_self _ _)
    have hset : dictSet acc (sanitize k) v = acc ++ [(k, v)] := by
      rw [hk]
      exact dictSet_of_not_contains acc k v (hfresh (k, v) (List.mem_cons_self _ _))
    have hnotin : k ∉ rest.map Prod.fst := (List.nodup_cons.mp hnd).1
    have hrest := ih (acc ++ [(k, v)])
      (fun q hq => hfix q (List.mem_cons_of_mem _ hq))
      (List.nodup_cons.mp hnd).2
      (fun q hq => by
        rw [containsKey_append]
        have h1 : containsKey acc q.1 = false := hfresh q (List.mem_cons_of_mem _ hq)
        have h2 : containsKey [(k, v)] q.1 = false := by
          have : k ≠ q.1 := fun he => hnotin (he ▸ List.mem_map_of_mem Prod.fst hq)
          simp [containsKey, this]
        rw [h1, h2]
        rfl)
    rw [List.foldl_cons, hset, hrest]
    simp

/-- C3 (amended): the `get` methods of the view mixins do mutate
`self.counters`.  `GetTopCounts.get` replaces it with the sanitized
dictionary, so the mapping is left unchanged exactly in the benign case where
sanitization fixes every stored label (the original keys being unique);
`GetCutoffCounts.get` additionally throws away every entry whose count is
below `min_n`, keeping only the sanitized entries at or above the cutoff; and
`GetCutoffTopCounts.get` raises before returning. -/
theorem views_mutate_accumulator :
    (∀ (sanitize : String → String) (counters : CountersState) (top_k : Option Nat),
      (∀ p ∈ counters, sanitize p.1 = p.1) → (counters.map Prod.fst).Nodup →
      (GetTopCounts_get sanitize counters top_k).2 = counters) ∧
    (∀ (sanitize : String → String) (counters : CountersState) (min_n : Option Nat),
      (GetCutoffCounts_get sanitize counters min_n).2
        = (get_init sanitize counters).filter (fun p => min_n.getD 3 ≤ p.2)) ∧
    (∀ (sanitize : String → String) (counters : CountersState) (min_n top_k : Option Nat),
      GetCutoffTopCounts_get sanitize counters min_n top_k
        = Except.error (PyErr.attributeError unboundSuperMsg)) := by
  refine ⟨?_, fun _ _ _ => rfl, fun _ _ _ _ => rfl⟩
  intro sanitize counters top_k hfix hnd
  show get_init sanitize counters = counters
  unfold get_init
  rw [foldl_dictSet_fresh sanitize counters [] hfix hnd (fun _ _ => rfl)]
  simp

/-- C3 (witness for the amended theorem): a top-k view over distinct,
sanitization-fixed labels leaves the accumulator unchanged. -/
theorem views_mutate_accumulator_witness :
    (GetTopCounts_get (fun s => s) [("a", 2), ("b", 5)] none).2 = [("a", 2), ("b", 5)] :=
  views_mutate_accumulator.1 (fun s => s) [("a", 2), ("b", 5)] none
    (fun _ _ => rfl) (by decide)

/-- C3 (counterexample): calling the cutoff view's `get` on the accumulator
`{"a": 1}` (with the default `min_n = 3`) leaves the accumulator empty — the
named-count mapping is not left unchanged by the view. -/
theorem cutoff_get_mutates_counterexample :
    (GetCutoffCounts_get (fun s => s) [("a", 1)] none).2 = [] ∧
    ([] : CountersState) ≠ [("a", 1)] :=
  ⟨rfl, by decide⟩

/-- C4 (code bug): `GetCutoffTopCounts.get` never produces the
cutoff-then-top-k output described by the spec: line 208 of
`measurement_base.py` evaluates `super(GetCutoffTopCounts).get()` — an
*unbound* `super` object, built without the instance argument — so attribute
lookup of `get` fails and every call raises
`AttributeError: 'super' object has no attribute 'get'`. -/
theorem getCutoffTopCounts_always_raises (sanitize : String → String)
    (counters : CountersState) (min_n top_k : Option Nat) :
    GetCutoffTopCounts_get sanitize counters min_n top_k
      = Except.error (PyErr.attributeError unboundSuperMsg) := rfl

/-! ### Filter evaluation in `add_tweet` -/

theorem runFilters_cons (p : List String) (c : JsonVal → JsonVal → Bool)
    (v : JsonVal) (fs : List FilterSpec) (tweet : JsonVal) :
    runFilters ((p, c, v) :: fs) tweet =
      match get_element tweet p with
      | Except.error e => Except.error e
      | Except.ok data => if c data v then runFilters fs tweet else Except.ok false := rfl

theorem runFilters_append_fail (pre : List FilterSpec) (path : List String)
    (cmp : JsonVal → JsonVal → Bool) (v : JsonVal) (post : List FilterSpec)
    (tweet : JsonVal)
    (hpre : ∀ f ∈ pre, ∃ d0, get_element tweet f.1 = Except.ok d0 ∧ f.2.1 d0 f.2.2 = true)
    (d : JsonVal) (hres : get_element tweet path = Except.ok d) (hcmp : cmp d v = false) :
    runFilters (pre ++ (path, cmp, v) :: post) tweet = Except.ok false := by
  induction pre with
  | nil =>
    rw [List.nil_append, runFilters_cons, hres]
    simp [hcmp]
  | cons f fs ih =>
    obtain ⟨p0, c0, v0⟩ := f
    obtain ⟨d0, hd0, hc0⟩ := hpre (p0, c0, v0) (List.mem_cons_self _ _)
    have hd0' : get_element tweet p0 = Except.ok d0 := hd0
    have hc0' : c0 d0 v0 = true := hc0
    rw [List.cons_append, runFilters_cons, hd0']
    simp only [hc0', if_true]
    exact ih (fun g hg => hpre g (List.mem_cons_of_mem _ hg))

/-- C5: when the filters are evaluated in declaration order and the first
failing one is reached — every earlier filter resolves and passes, this one
resolves and its comparator is false — `add_tweet` returns with the state
unchanged and without raising, for *every* `update` function (so `update` is
never invoked) and for *every* list of later filters (so evaluation stops at
the failing filter and later filters are never evaluated, even ones whose
paths would not resolve). -/
theorem add_tweet_filter_short_circuit {σ : Type} (pre : List FilterSpec)
    (path : List String) (cmp : JsonVal → JsonVal → Bool) (v : JsonVal)
    (tweet d : JsonVal)
    (hpre : ∀ f ∈ pre, ∃ d0, get_element tweet f.1 = Except.ok d0 ∧ f.2.1 d0 f.2.2 = true)
    (hres : get_element tweet path = Except.ok d) (hcmp : cmp d v = false) :
    ∀ (post : List FilterSpec) (update : σ → JsonVal → σ) (st : σ),
      add_tweet (some (pre ++ (path, cmp, v) :: post)) update st tweet = (st, none) := by
  intro post update st
  show (match runFilters (pre ++ (path, cmp, v) :: post) tweet with
    | Except.error e => (st, some e)
    | Except.ok false => (st, none)
    | Except.ok true => (update st tweet, none)) = (st, none)
  rw [runFilters_append_fail pre path cmp v post tweet hpre d hres hcmp]

/-- C5 (witness): a passing filter on `"a"`, then a failing filter on `"b"`,
then a filter on the absent key `"zz"` (which would raise if evaluated):
`add_tweet` returns the unchanged state `0` with no error. -/
theorem add_tweet_filter_short_circuit_witness :
    add_tweet (some ([(["a"], fun _ _ => true, JsonVal.null)] ++
        (["b"], fun _ _ => false, JsonVal.null) ::
        [(["zz"], fun _ _ => true, JsonVal.null)]))
      (fun (s : Nat) _ => s + 1) 0
      (JsonVal.obj [("a", JsonVal.num 1), ("b", JsonVal.num 2)]) = (0, none) :=
  add_tweet_filter_short_circuit [(["a"], fun _ _ => true, JsonVal.null)]
    ["b"] (fun _ _ => false) JsonVal.null
    (JsonVal.obj [("a", JsonVal.num 1), ("b", JsonVal.num 2)]) (JsonVal.num 2)
    (by
      intro f hf
      rw [List.mem_singleton] at hf
      subst hf
      exact ⟨JsonVal.num 1, rfl, rfl⟩)
    rfl rfl [(["zz"], fun _ _ => true, JsonVal.null)] (fun s _ => s + 1) 0

/-! ### Fan-out of `get_element` over sequence-valued nodes -/

theorem mapExcept_ok_length_elems (f : JsonVal → Except PyErr JsonVal)
    (xs : List JsonVal) :
    ∀ ys, mapExcept f xs = Except.ok ys →
      ys.length = xs.length ∧
      ∀ i (hx : i < xs.length) (hy : i < ys.length),
        f (xs.get ⟨i, hx⟩) = Except.ok (ys.get ⟨i, hy⟩) := by
  induction xs with
  | nil =>
    intro ys h
    have hys : ys = [] := by
      simpa [mapExcept] using h.symm
    subst hys
    exact ⟨rfl, fun i hx _ => absurd hx (Nat.not_lt_zero i)⟩
  | cons x xs ih =>
    intro ys h
    unfold mapExcept at h
    cases hfx : f x with
    | error e => rw [hfx] at h; cases h
    | ok y =>
      rw [hfx] at h
      cases hm : mapExcept f xs with
      | error e => rw [hm] at h; cases h
      | ok ys' =>
        rw [hm] at h
        injection h with h'
        subst h'
        obtain ⟨hlen, helem⟩ := ih ys' hm
        refine ⟨by simp [hlen], ?_⟩
        intro i hx hy
        cases i with
        | zero => simpa using hfx
        | succ n =>
          simpa using helem n (by simpa using hx) (by simpa using hy)

/-- C6: when resolution of a path with at least one remaining key reaches a
sequence-valued node (`data[key]` is a list and the path continues), a
successful `get_element` returns a list holding exactly one result per
element, the i-th result being the resolution of the remaining path against
the i-th element — one result per element, in the sequence's original
order. -/
theorem get_element_fanout (data : JsonVal) (key k2 : String) (rest : List String)
    (os : List JsonVal) (hobj : pyIndexStr data key = Except.ok (JsonVal.arr os))
    (v : JsonVal) (hrun : get_element data (key :: k2 :: rest) = Except.ok v) :
    ∃ results : List JsonVal, v = JsonVal.arr results ∧
      results.length = os.length ∧
      ∀ i (ho : i < os.length) (hr : i < results.length),
        get_element (os.get ⟨i, ho⟩) (k2 :: rest) = Except.ok (results.get ⟨i, hr⟩) := by
  have hstep : get_element data (key :: k2 :: rest) =
      (match mapExcept (fun o => get_element o (k2 :: rest)) os with
       | Except.error e => Except.error e
       | Except.ok results => Except.ok (JsonVal.arr results)) := by
    simp only [get_element, hobj]
  rw [hstep] at hrun
  cases hm : mapExcept (fun o => get_element o (k2 :: rest)) os with
  | error e => rw [hm] at hrun; cases hrun
  | ok results =>
    rw [hm] at hrun
    injection hrun with h'
    obtain ⟨hlen, helem⟩ := mapExcept_ok_length_elems
      (fun o => get_element o (k2 :: rest)) os results hm
    exact ⟨results, h'.symm, hlen, fun i ho hr => helem i ho hr⟩

/-- C6 (witness): resolving `["a", "b"]` through a two-element array yields
the two element-wise results, in order. -/
theorem get_element_fanout_witness :
    ∃ results : List JsonVal,
      JsonVal.arr [JsonVal.num 1, JsonVal.num 2] = JsonVal.arr results ∧
      results.length = 2 := by
  obtain ⟨results, hv, hlen, _⟩ := get_element_fanout
    (JsonVal.obj [("a", JsonVal.arr [JsonVal.obj [("b", JsonVal.num 1)],
      JsonVal.obj [("b", JsonVal.num 2)]])])
    "a" "b" []
    [JsonVal.obj [("b", JsonVal.num 1)], JsonVal.obj [("b", JsonVal.num 2)]]
    rfl
    (JsonVal.arr [JsonVal.num 1, JsonVal.num 2])
    rfl
  exact ⟨results, hv, by simpa using hlen⟩

/-! ### The default `combine` -/

/-- C7 (amended): a measurement kind that does not override `combine` fails
on every `combine` call with a `NotImplementedError` carrying the fixed
message "Please implement a 'combine' method for your measurement class";
the message is the same for every measurement class (so it does not name the
class), and no merge happens: the state comes back unmodified. -/
theorem default_combine_raises_fixed_message {σ : Type} (className : String)
    (st other : σ) :
    MeasurementBase_combine className st other
      = (st, some (PyErr.notImplementedError
          "Please implement a \x27combine\x27 method for your measurement class")) ∧
    ∀ otherName : String,
      MeasurementBase_combine className st other
        = MeasurementBase_combine otherName st other :=
  ⟨rfl, fun _ => rfl⟩

/-- C7 (counterexample): two different measurement classes raise the
identical error from the default `combine`, and the fixed message does not
contain either class name as a substring — so the error message does not
name the measurement's class. -/
theorem default_combine_message_counterexample :
    MeasurementBase_combine "CutoffBodyTerms" (0 : Nat) 0
      = MeasurementBase_combine "MentionCounters" (0 : Nat) 0 ∧
    ("CutoffBodyTerms" : String) ≠ "MentionCounters" ∧
    ¬ ("CutoffBodyTerms".toList <:+:
        "Please implement a \x27combine\x27 method for your measurement class".toList) ∧
    ¬ ("MentionCounters".toList <:+:
        "Please implement a \x27combine\x27 method for your measurement class".toList) :=
  ⟨rfl, by decide, by decide, by decide⟩

/-! ### Missing fields during filter evaluation -/

theorem runFilters_append_error (pre : List FilterSpec) (path : List String)
    (cmp : JsonVal → JsonVal → Bool) (v : JsonVal) (post : List FilterSpec)
    (tweet : JsonVal)
    (hpre : ∀ f ∈ pre, ∃ d0, get_element tweet f.1 = Except.ok d0 ∧ f.2.1 d0 f.2.2 = true)
    (e : PyErr) (hres : get_element tweet path = Except.error e) :
    runFilters (pre ++ (path, cmp, v) :: post) tweet = Except.error e := by
  induction pre with
  | nil =>
    rw [List.nil_append, runFilters_cons, hres]
  | cons f fs ih =>
    obtain ⟨p0, c0, v0⟩ := f
    obtain ⟨d0, hd0, hc0⟩ := hpre (p0, c0, v0) (List.mem_cons_self _ _)
    have hd0' : get_element tweet p0 = Except.ok d0 := hd0
    have hc0' : c0 d0 v0 = true := hc0
    rw [List.cons_append, runFilters_cons, hd0']
    simp only [hc0', if_true]
    exact ih (fun g hg => hpre g (List.mem_cons_of_mem _ hg))

/-- C8 (amended): when a configured filter's path hits a missing key (every
earlier filter having resolved and passed), `add_tweet` propagates the
`KeyError` raised at the failed lookup — it neither admits nor rejects the
record, `update` is never invoked (the result is the same for every `update`
function), and the accumulator state is unchanged.  The error value is the
`KeyError` of the single missing key: it identifies neither the full path
nor the record's identifier. -/
theorem add_tweet_missing_field_propagates {σ : Type} (pre : List FilterSpec)
    (path : List String) (cmp : JsonVal → JsonVal → Bool) (v : JsonVal)
    (tweet : JsonVal) (k : String)
    (hpre : ∀ f ∈ pre, ∃ d0, get_element tweet f.1 = Except.ok d0 ∧ f.2.1 d0 f.2.2 = true)
    (hres : get_element tweet path = Except.error (PyErr.keyError k)) :
    ∀ (post : List FilterSpec) (update : σ → JsonVal → σ) (st : σ),
      add_tweet (some (pre ++ (path, cmp, v) :: post)) update st tweet
        = (st, some (PyErr.keyError k)) := by
  intro post update st
  show (match runFilters (pre ++ (path, cmp, v) :: post) tweet with
    | Except.error e => (st, some e)
    | Except.ok false => (st, none)
    | Except.ok true => (update st tweet, none)) = (st, some (PyErr.keyError k))
  rw [runFilters_append_error pre path cmp v post tweet hpre (PyErr.keyError k) hres]

/-- C8 (witness): a passing filter on `"id"` followed by a filter on the
absent key `"verb"`: the call returns the unchanged state `0` together with
the propagated `KeyError("verb")`. -/
theorem add_tweet_missing_field_witness :
    add_tweet (some ([(["id"], fun _ _ => true, JsonVal.null)] ++
        (["verb"], fun _ _ => true, JsonVal.null) :: []))
      (fun (s : Nat) _ => s + 1) 0 (JsonVal.obj [("id", JsonVal.num 1)])
      = (0, some (PyErr.keyError "verb")) :=
  add_tweet_missing_field_propagates [(["id"], fun _ _ => true, JsonVal.null)]
    ["verb"] (fun _ _ => true) JsonVal.null (JsonVal.obj [("id", JsonVal.num 1)]) "verb"
    (by
      intro f hf
      rw [List.mem_singleton] at hf
      subst hf
      exact ⟨JsonVal.num 1, rfl, rfl⟩)
    rfl [] (fun s _ => s + 1) 0

/-- C8 (counterexample): two records with different identifiers (`id = 1` and
`id = 2`) failing on two different filter paths (`["verb"]` and
`["x", "verb"]`) produce the *identical* error `KeyError("verb")` — the
raised error names only the missing key, so it cannot be identifying the
path or the record's identifier. -/
theorem missing_field_error_counterexample :
    add_tweet (some [((["verb"] : List String), fun _ _ => true, JsonVal.null)])
      (fun (s : Nat) _ => s + 1) 0 (JsonVal.obj [("id", JsonVal.num 1)])
      = (0, some (PyErr.keyError "verb")) ∧
    add_tweet (some [((["x", "verb"] : List String), fun _ _ => true, JsonVal.null)])
      (fun (s : Nat) _ => s + 1) 0
      (JsonVal.obj [("id", JsonVal.num 2), ("x", JsonVal.obj [])])
      = (0, some (PyErr.keyError "verb")) ∧
    (["verb"] : List String) ≠ ["x", "verb"] ∧
    pyIndexStr (JsonVal.obj [("id", JsonVal.num 1)]) "id" = Except.ok (JsonVal.num 1) ∧
    pyIndexStr (JsonVal.obj [("id", JsonVal.num 2), ("x", JsonVal.obj [])]) "id"
      = Except.ok (JsonVal.num 2) ∧
    (1 : Int) ≠ 2 :=
  ⟨rfl, rfl, by decide, rfl, rfl, by decide⟩

/-! ### Specified-term counting and the zero-handling choice -/

theorem containsKey_dictIncr (d : CountersState) (key : String) (v : Nat)
    (k : String) :
    containsKey (dictIncr d key v) k = (containsKey d k || (key == k)) := by
  unfold dictIncr
  cases hmem : containsKey d key with
  | true =>
    simp only [if_true]
    rw [containsKey_incrementFirst]
    cases hk : key == k with
    | true =>
      have : key = k := by simpa using hk
      subst this
      simp [hmem]
    | false => simp
  | false =>
    simp only [Bool.false_eq_true, if_false]
    rw [containsKey_append]
    simp [containsKey]

theorem foldl_terms_no_match (cmp : String → String → Bool) (tok term : String)
    (h : cmp tok term = false) (tl : List String) :
    ∀ cs : CountersState,
      containsKey (tl.foldl (fun cs tm => if cmp tok tm then dictIncr cs tm 1 else cs) cs) term
        = containsKey cs term := by
  induction tl with
  | nil => intro cs; rfl
  | cons tm rest ih =>
    intro cs
    rw [List.foldl_cons, ih]
    by_cases hc : cmp tok tm = true
    · simp only [hc, if_true]
      rw [containsKey_dictIncr]
      cases htm : tm == term with
      | true =>
        have : tm = term := by simpa using htm
        subst this
        rw [h] at hc
        cases hc
      | false => simp
    · simp [hc]

theorem specified_update_no_match (cmp : String → String → Bool)
    (term_list : List String) (term : String) (tokens : List String)
    (hnm : ∀ tok ∈ tokens, cmp tok term = false) :
    ∀ cs : CountersState,
      containsKey (SpecifiedTermCounters_update cmp term_list cs tokens) term
        = containsKey cs term := by
  induction tokens with
  | nil => intro cs; rfl
  | cons tok rest ih =>
    intro cs
    unfold SpecifiedTermCounters_update
    rw [List.foldl_cons]
    have h1 := ih (fun t ht => hnm t (List.mem_cons_of_mem _ ht))
    unfold SpecifiedTermCounters_update at h1
    rw [h1, foldl_terms_no_match cmp tok term (hnm tok (List.mem_cons_self _ _)) term_list cs]

theorem not_containsKey_ne (d : CountersState) (k : String)
    (h : containsKey d k = false) : ∀ q ∈ d, q.1 ≠ k := by
  induction d with
  | nil => intro q hq; cases hq
  | cons p rest ih =>
    intro q hq
    have hp : (p.1 == k) = false ∧ containsKey rest k = false := by
      obtain ⟨k0, c⟩ := p
      cases hh : k0 == k
      · exact ⟨by simp [hh], by simpa [containsKey, hh] using h⟩
      · simp [containsKey, hh] at h
    rcases List.mem_cons.mp hq with hq1 | hq2
    · subst hq1
      intro he
      rw [he] at hp
      simp at hp
    · exact ih hp.2 q hq2

/-- C10: for a `SpecifiedTermCounters` measurement (with any term comparator
and any sanitizer), a term that the comparator matched against no ingested
token — across any sequence of ingested token lists, starting from the fresh
empty accumulator — is absent from the accumulator, and every entry of
`get()`'s output comes from an accumulator key different from that term; an
entry for a term is only ever created by a comparator match. -/
theorem specified_term_zero_is_absence (cmp : String → String → Bool)
    (term_list : List String) (batches : List (List String)) (term : String)
    (sanitize : String → String)
    (hnm : ∀ toks ∈ batches, ∀ tok ∈ toks, cmp tok term = false) :
    containsKey (batches.foldl (SpecifiedTermCounters_update cmp term_list) []) term
      = false ∧
    ∀ p ∈ Counters_get sanitize
        (batches.foldl (SpecifiedTermCounters_update cmp term_list) []),
      ∃ q ∈ batches.foldl (SpecifiedTermCounters_update cmp term_list) [],
        q.1 ≠ term ∧ p = (q.2, sanitize q.1) := by
  have hkey : ∀ (bs : List (List String)),
      (∀ toks ∈ bs, ∀ tok ∈ toks, cmp tok term = false) →
      ∀ cs : CountersState,
        containsKey (bs.foldl (SpecifiedTermCounters_update cmp term_list) cs) term
          = containsKey cs term := by
    intro bs
    induction bs with
    | nil => intro _ cs; rfl
    | cons b rest ih =>
      intro hb cs
      rw [List.foldl_cons,
        ih (fun t ht tok htok => hb t (List.mem_cons_of_mem _ ht) tok htok),
        specified_update_no_match cmp term_list term b (hb b (List.mem_cons_self _ _)) cs]
  have habs : containsKey (batches.foldl (SpecifiedTermCounters_update cmp term_list) []) term
      = false := by
    rw [hkey batches hnm []]
    rfl
  refine ⟨habs, ?_⟩
  intro p hp
  unfold Counters_get at hp
  obtain ⟨q, hq, hqp⟩ := List.mem_map.mp hp
  exact ⟨q, hq, not_containsKey_ne _ term habs q hq, hqp.symm⟩

/-- C10 (witness): with `term_list = ["cat", "dog"]`, exact-match comparison,
and one tweet whose body tokens are `["cat", "bird", "cat"]`, the term
`"dog"` (matched by nothing) is absent from the accumulator, and every
`get()` entry stems from a key other than `"dog"`. -/
theorem specified_term_zero_is_absence_witness :
    containsKey ([["cat", "bird", "cat"]].foldl
        (SpecifiedTermCounters_update (fun a b => a == b) ["cat", "dog"]) []) "dog"
      = false ∧
    ∀ p ∈ Counters_get (fun s => s)
        ([["cat", "bird", "cat"]].foldl
          (SpecifiedTermCounters_update (fun a b => a == b) ["cat", "dog"]) []),
      ∃ q ∈ [["cat", "bird", "cat"]].foldl
          (SpecifiedTermCounters_update (fun a b => a == b) ["cat", "dog"]) [],
        q.1 ≠ "dog" ∧ p = (q.2, q.1) :=
  specified_term_zero_is_absence (fun a b => a == b) ["cat", "dog"]
    [["cat", "bird", "cat"]] "dog" (fun s => s) (by decide)

/-! ### The vision-label enrichment boundary -/

theorem ebind_ok {α β : Type} (a : α) (f : α → Except PyErr β) :
    (Except.ok a >>= f) = f a := rfl

theorem ebind_error {α β : Type} (e : PyErr) (f : α → Except PyErr β) :
    ((Except.error e : Except PyErr α) >>= f) = Except.error e := rfl

theorem lookupField_of_containsField (fields : List (String × JsonVal)) (k : String)
    (h : containsField fields k = true) : ∃ v, lookupField fields k = some v := by
  induction fields with
  | nil => simp [containsField] at h
  | cons p rest ih =>
    obtain ⟨k0, v0⟩ := p
    cases hh : k0 == k with
    | true => exact ⟨v0, by simp [lookupField, hh]⟩
    | false =>
      have hrest : containsField rest k = true := by
        simpa [containsField, hh] using h
      obtain ⟨v, hv⟩ := ih hrest
      exact ⟨v, by simp [lookupField, hh, hv]⟩

/-- C9 (amended): behaviour of `enrichment_value` at its boundary.  (1) A
successful call returns `None` or a list of `(label, probability, code)`
string triples of length at most `topk`, given the classifier's contract of
returning at most `topk` predictions.  (2) A record without the
`twitter_entities` key (its `id` being present, as the logging reads it)
degrades to `None`.  (3) An HTTP *error response* while downloading degrades
to `None`.  (4) But an exception raised by the HTTP client (e.g. a network
connection error) propagates out of `enrichment_value` — it does not degrade
to `None`. -/
theorem enrichment_value_boundary_behavior
    (httpGet : JsonVal → Except PyErr HttpResponse)
    (imageOpen : String → Except PyErr String)
    (predict : String → Nat → List (String × String × String)) (topk : Nat) :
    (∀ tweet out, (∀ img, (predict img topk).length ≤ topk) →
      ImageLabel_enrichment_value httpGet imageOpen predict topk tweet
        = Except.ok (some out) → out.length ≤ topk) ∧
    (∀ fields, containsField fields "twitter_entities" = false →
      containsField fields "id" = true →
      ImageLabel_enrichment_value httpGet imageOpen predict topk (JsonVal.obj fields)
        = Except.ok none) ∧
    (∀ tweet url resp, ImageLabel_get_img_url tweet = Except.ok (some url) →
      pyTruthy url = true → httpGet url = Except.ok resp → resp.ok = false →
      ImageLabel_enrichment_value httpGet imageOpen predict topk tweet
        = Except.ok none) ∧
    (∀ tweet url e, ImageLabel_get_img_url tweet = Except.ok (some url) →
      pyTruthy url = true → httpGet url = Except.error e →
      ImageLabel_enrichment_value httpGet imageOpen predict topk tweet
        = Except.error e) := by
  refine ⟨?_, ?_, ?_, ?_⟩
  · intro tweet out hc h
    unfold ImageLabel_enrichment_value at h
    cases himg : ImageLabel_get_image_from_tweet httpGet imageOpen tweet with
    | error e =>
      rw [himg, ebind_error] at h
      cases h
    | ok o =>
      rw [himg, ebind_ok] at h
      cases o with
      | none =>
        simp only [pure, Except.pure] at h
        injection h with h'
        cases h'
      | some img =>
        simp only [pure, Except.pure] at h
        injection h with h'
        injection h' with h''
        rw [← h'', ImageLabel_format_output, List.length_map]
        exact hc img
  · intro fields hTE hid
    obtain ⟨v, hv⟩ := lookupField_of_containsField fields "id" hid
    have hurl : ImageLabel_get_img_url (JsonVal.obj fields) = Except.ok none := by
      unfold ImageLabel_get_img_url logTweetId
      simp [jsonContains, hTE, pyIndexStr, hv, ebind_ok]
    unfold ImageLabel_enrichment_value ImageLabel_get_image_from_tweet logTweetId
    rw [hurl, ebind_ok]
    simp only [pyIndexStr, hv, ebind_ok]
    rfl
  · intro tweet url resp hurl htr hhttp hok
    unfold ImageLabel_enrichment_value ImageLabel_get_image_from_tweet
      ImageLabel_download_image
    rw [hurl, ebind_ok]
    simp only [htr, if_true]
    rw [hhttp, ebind_ok]
    simp only [hok, Bool.false_eq_true, if_false]
    rfl
  · intro tweet url e hurl htr hhttp
    unfold ImageLabel_enrichment_value ImageLabel_get_image_from_tweet
      ImageLabel_download_image
    rw [hurl, ebind_ok]
    simp only [htr, if_true]
    rw [hhttp, ebind_error, ebind_error]

/-- C9 (witness for the amended theorem): a record carrying a usable media
URL, downloaded through an HTTP client that raises a connection error: the
exception propagates out of `enrichment_value`. -/
theorem enrichment_value_boundary_witness :
    ImageLabel_enrichment_value (fun _ => Except.error PyErr.connectionError)
      (fun s => Except.ok s) (fun _ _ => []) 5
      (JsonVal.obj [("id", JsonVal.num 3),
        ("twitter_entities", JsonVal.obj [("media",
          JsonVal.arr [JsonVal.obj [("media_url", JsonVal.str "http://x")]])])])
      = Except.error PyErr.connectionError :=
  (enrichment_value_boundary_behavior (fun _ => Except.error PyErr.connectionError)
      (fun s => Except.ok s) (fun _ _ => []) 5).2.2.2
    (JsonVal.obj [("id", JsonVal.num 3),
      ("twitter_entities", JsonVal.obj [("media",
        JsonVal.arr [JsonVal.obj [("media_url", JsonVal.str "http://x")]])])])
    (JsonVal.str "http://x") PyErr.connectionError rfl rfl rfl

/-- C9 (counterexample): a record whose `twitter_entities.media` is the
*empty* array — a record with no media reference — does not degrade to
`None`: `media[0]` raises `IndexError`, the `try/except KeyError` does not
catch it, and the exception propagates out of `enrichment_value`. -/
theorem enrichment_value_raises_counterexample :
    ImageLabel_enrichment_value (fun _ => Except.ok ⟨true, "img"⟩)
      (fun s => Except.ok s) (fun _ _ => []) 5
      (JsonVal.obj [("id", JsonVal.num 1),
        ("twitter_entities", JsonVal.obj [("media", JsonVal.arr [])])])
      = Except.error PyErr.indexError ∧
    (Except.error PyErr.indexError :
        Except PyErr (Option (List (String × String × String)))) ≠ Except.ok none :=
  ⟨rfl, fun h => Except.noConfusion h⟩

